import Mathlib

/-!
Verification of the blog's content build pipeline and theme controller.

The development shallowly embeds the repository's TypeScript sources:
* `src/lib/api.ts` — `getPostSlugs`, `getPostBySlug`, `getAllPosts`;
* `src/lib/markdownToHtml.ts` — the Markdown → HTML renderer;
* `src/app/_components/theme-switcher.tsx` — the theme preference controller.

The filesystem is modelled as an association list from filename to raw file
text, and the third-party libraries the pipeline calls into (`gray-matter`,
`remark`/`rehype`) are modelled from the specification's contracts, as their
code is not part of this repository.
-/

namespace Blog

/-- Error kinds of the content pipeline: a missing file surfaces as `NotFound`
(the uncaught ENOENT of `fs.readFileSync`), an unparseable frontmatter block
as `MalformedFrontmatter`. -/
inductive Err where
  | NotFound
  | MalformedFrontmatter
deriving DecidableEq

/-- The content root `_posts`, modelled as an association list from filename
to raw file text. `fs.readdirSync` enumerates the keys in order and
`fs.readFileSync` looks one key up. -/
abbrev FileSystem := List (String × String)

/-- Model of `fs.readdirSync(postsDirectory)`. -/
def readDir (fs : FileSystem) : List String := fs.map Prod.fst

/-- Model of `fs.readFileSync(path)`: `none` corresponds to the thrown
ENOENT error. -/
def readFile (fs : FileSystem) (path : String) : Option String :=
  (fs.find? (fun e => e.1 == path)).map Prod.snd

/-- Embedding of `getPostSlugs`: the raw filenames of the content root. -/
def getPostSlugs (fs : FileSystem) : List String := readDir fs

/-- Helper for the embedding of the regex replace: `dropSuffix l suf` is
`some pre` exactly when `l = pre ++ suf`, and `none` otherwise. -/
def dropSuffix (l suf : List Char) : Option (List Char) :=
  if l.drop (l.length - suf.length) = suf then
    some (l.take (l.length - suf.length))
  else none

/-- Embedding of `slug.replace(/\.md$/, "")`: strip one trailing `".md"`. -/
def stripMdExt (s : String) : String :=
  match dropSuffix s.data ".md".data with
  | some pre => ⟨pre⟩
  | none => s

/-! ### String helpers

Character-list based helpers standing in for the string operations of the
JavaScript runtime, written by structural recursion so that every definition
evaluates inside the kernel. -/

/-- Whitespace characters relevant to trimming a frontmatter line. -/
def isWs (c : Char) : Bool := c = ' ' || c = '\t' || c = '\r'

/-- Trim leading and trailing whitespace. -/
def trimStr (s : String) : String :=
  ⟨((s.data.dropWhile isWs).reverse.dropWhile isWs).reverse⟩

/-- Does `s` start with `p`? -/
def startsWithStr (s p : String) : Bool := p.data.isPrefixOf s.data

/-- Drop the first `n` characters of `s`. -/
def dropStr (s : String) (n : Nat) : String := ⟨s.data.drop n⟩

/-- Split a text into its lines at `'\n'`; auxiliary recursion carrying the
reversed current line. -/
def splitLinesAux : List Char → List Char → List String
  | [], acc => [⟨acc.reverse⟩]
  | c :: cs, acc =>
    if c = '\n' then ⟨acc.reverse⟩ :: splitLinesAux cs []
    else splitLinesAux cs (c :: acc)

/-- Split a text into its lines at `'\n'` (model of splitting on the newline
separator; never returns an empty list). -/
def splitLines (s : String) : List String := splitLinesAux s.data []

/-- Join lines with `'\n'` (left inverse of `splitLines` on newline-free
lines). -/
def joinLines : List String → String
  | [] => ""
  | [l] => l
  | l :: ls => l ++ "\n" ++ joinLines ls

/-- Strict lexicographic comparison of character lists, the order JavaScript
uses to compare the ISO-8601 `date` strings with `<` and `>`. -/
def charListLt : List Char → List Char → Bool
  | [], [] => false
  | [], _ :: _ => true
  | _ :: _, [] => false
  | a :: as, b :: bs =>
    if a < b then true else if b < a then false else charListLt as bs

/-- Reflexive lexicographic comparison: `l₁ ≤ l₂` iff not `l₂ < l₁`. -/
def charListLe (l₁ l₂ : List Char) : Bool := !charListLt l₂ l₁

/-- Lexicographic `≤` on strings (how the spec compares `date` fields). -/
def dateLe (s t : String) : Bool := charListLe s.data t.data

/-! ### Frontmatter parser (`gray-matter`) -/

/-- Split a line at its first colon, the key/value separator. -/
def splitFirstColon : List Char → Option (List Char × List Char)
  | [] => none
  | c :: cs =>
    if c = ':' then some ([], cs)
    else (splitFirstColon cs).map (fun p => (c :: p.1, p.2))

/-- Strip one layer of surrounding double quotes from a scalar value. -/
def unquote (s : String) : String :=
  match s.data with
  | [] => s
  | c :: rest =>
    if c = '"' ∧ rest.getLast? = some '"' then ⟨rest.dropLast⟩ else s

/-- Parse one `key: value` frontmatter line; `none` when the line has no
colon and hence is not parseable as a key-value pair. -/
def parseKV (line : String) : Option (String × String) :=
  (splitFirstColon line.data).map
    (fun p => (trimStr ⟨p.1⟩, unquote (trimStr ⟨p.2⟩)))

/-- Parse the lines of a frontmatter block into a key-value mapping; a
nonempty line without a colon makes the block unparseable. -/
def parseFMLines : List String → Except Err (List (String × String))
  | [] => .ok []
  | l :: ls =>
    if trimStr l = "" then parseFMLines ls
    else
      match parseKV l with
      | none => .error .MalformedFrontmatter
      | some kv => (parseFMLines ls).map (kv :: ·)

/-- Scan for the closing `---` delimiter line: returns the block before it
and the remaining lines after it, or `none` when the block is never closed. -/
def findClose : List String → Option (List String × List String)
  | [] => none
  | l :: ls =>
    if l = "---" then some ([], ls)
    else (findClose ls).map (fun p => (l :: p.1, p.2))

/-- Modelled from the spec: the frontmatter parser (the third-party
`gray-matter` library, whose code is not part of this repository). Per the
spec a leading block bounded by `---` delimiter lines holds key-value
metadata and the text after the closing delimiter is the body verbatim; with
no leading delimiter line the metadata is empty and the whole text is the
body; a block that is opened but never closed, or whose key-value content is
unparseable, is a `MalformedFrontmatter` error. -/
def matter (text : String) : Except Err (List (String × String) × String) :=
  let lines := splitLines text
  if lines.head? = some "---" then
    match findClose lines.tail with
    | none => .error .MalformedFrontmatter
    | some (block, body) =>
      (parseFMLines block).map (fun d => (d, joinLines body))
  else
    .ok ([], text)

/-! ### Markdown renderer (`remark` / `rehype`) -/

/-- Escape the HTML metacharacters of a text fragment. -/
def escapeHtml (s : String) : String :=
  s.data.foldr
    (fun c acc =>
      (if c = '&' then "&amp;"
       else if c = '<' then "&lt;"
       else if c = '>' then "&gt;"
       else String.singleton c) ++ acc)
    ""

/-- Modelled from the spec: the fence-language hints registered with the
syntax highlighter (`rehype-highlight`, whose code is not part of this
repository). -/
def knownLangs : List String :=
  ["javascript", "typescript", "js", "ts", "rust", "python",
   "bash", "json", "html", "css", "solidity"]

/-- The fence delimiter of a code block. -/
def fenceStr : String := "```"

/-- Serialize one fenced code block: a recognized language hint gets the
highlighter's `hljs` class, an unknown hint degrades to a plain
`<pre><code>` wrapper around the escaped literal code text, and an absent
hint stays unclassed. -/
def renderCode (lang : String) (codeLines : List String) : String :=
  let cls :=
    if lang = "" then ""
    else if lang ∈ knownLangs then " class=\"hljs language-" ++ lang ++ "\""
    else " class=\"language-" ++ lang ++ "\""
  "<pre><code" ++ cls ++ ">" ++ escapeHtml (joinLines codeLines) ++
    "\n</code></pre>"

/-- Render the lines of a Markdown document into HTML blocks. The first
argument is `some lang` while inside a fenced code block (with the collected
code lines as second argument) and `none` outside. -/
def renderAux : Option String → List String → List String → List String
  | none, _, [] => []
  | some lang, acc, [] => [renderCode lang acc]
  | none, _, l :: ls =>
    if startsWithStr l fenceStr then
      renderAux (some (trimStr (dropStr l 3))) [] ls
    else if startsWithStr l "# " then
      ("<h1>" ++ escapeHtml (dropStr l 2) ++ "</h1>") :: renderAux none [] ls
    else if trimStr l = "" then renderAux none [] ls
    else ("<p>" ++ escapeHtml l ++ "</p>") :: renderAux none [] ls
  | some lang, acc, l :: ls =>
    if startsWithStr l fenceStr then renderCode lang acc :: renderAux none [] ls
    else renderAux (some lang) (acc ++ [l]) ls

/-- Render a list of Markdown lines to the final HTML string. -/
def markdownToHtmlLines (lines : List String) : String :=
  joinLines (renderAux none [] lines)

/-- Modelled from the spec: embedding of `markdownToHtml`
(`src/lib/markdownToHtml.ts`), a pure pipeline
`remark → remark-rehype → rehype-highlight → rehype-stringify` over the
input text; the library internals are not part of this repository and are
modelled from the spec's renderer contract. -/
def markdownToHtml (markdown : String) : String :=
  markdownToHtmlLines (splitLines markdown)

/-! ### Post assembly (`src/lib/api.ts`) -/

/-- The assembled Post entity: the frontmatter mapping spread into the
record together with the derived `slug` and rendered `content`; the `date`
field is the frontmatter's `date` value (the sort key). -/
structure Post where
  slug : String
  date : String
  content : String
  data : List (String × String)
deriving DecidableEq

/-- Value of a frontmatter key, defaulting to the empty string. -/
def getField (data : List (String × String)) (k : String) : String :=
  ((data.find? (fun e => e.1 == k)).map Prod.snd).getD ""

/-- Embedding of `getPostBySlug`: strip a trailing `.md` from the argument,
read `<realSlug>.md` from the content root, split frontmatter from body, and
assemble the Post with the rendered body. Errors of the read and of the
parse propagate. -/
def getPostBySlug (fs : FileSystem) (slug : String) : Except Err Post :=
  let realSlug := stripMdExt slug
  let fullPath := realSlug ++ ".md"
  match readFile fs fullPath with
  | none => .error .NotFound
  | some fileContents =>
    match matter fileContents with
    | .error e => .error e
    | .ok (data, content) =>
      .ok { slug := realSlug, date := getField data "date",
            content := markdownToHtml content, data := data }

/-- Insert a post into a date-descending list, mirroring the JavaScript
comparator `(post1, post2) => (post1.date > post2.date ? -1 : 1)`: the new
post precedes exactly the posts whose date is strictly smaller. -/
def insertPost (p : Post) : List Post → List Post
  | [] => [p]
  | q :: qs =>
    if charListLt q.date.data p.date.data then p :: q :: qs
    else q :: insertPost p qs

/-- Sort posts by date descending with the comparator of `getAllPosts`
(ties are placed in an unspecified order, as in the source). -/
def sortPosts (l : List Post) : List Post := l.foldr insertPost []

/-- Embedding of `getAllPosts`: fetch every slug of the content root (a
failing fetch fails the whole collection, as with `Promise.all`) and sort
the posts by date in descending order. -/
def getAllPosts (fs : FileSystem) : Except Err (List Post) :=
  ((readDir fs).mapM (getPostBySlug fs)).map sortPosts

/-! ### Theme preference controller (`theme-switcher.tsx`) -/

/-- The three color scheme preferences. -/
inductive ColorSchemePreference where
  | system
  | dark
  | light
deriving DecidableEq, BEq

/-- Embedding of the `modes` array. -/
def modes : List ColorSchemePreference := [.system, .dark, .light]

/-- Embedding of `STORAGE_KEY`. -/
def STORAGE_KEY : String := "nextjs-blog-starter-theme"

/-- Embedding of `useState<ColorSchemePreference>("system")`: the state the
controller starts in. -/
def initialMode : ColorSchemePreference := .system

/-- Serialization of a preference to its stored string. -/
def modeString : ColorSchemePreference → String
  | .system => "system"
  | .dark => "dark"
  | .light => "light"

/-- Embedding of `handleModeSwitch`:
`setMode(modes[(modes.indexOf(mode) + 1) % modes.length])`. -/
def handleModeSwitch (mode : ColorSchemePreference) : ColorSchemePreference :=
  modes.getD ((modes.indexOf mode + 1) % modes.length) .system

/-- The browser's local storage, modelled as an association list. -/
abbrev Storage := List (String × String)

/-- Model of `localStorage.setItem`. -/
def setItem (st : Storage) (k v : String) : Storage :=
  (k, v) :: st.filter (fun e => e.1 ≠ k)

/-- Model of `localStorage.getItem`. -/
def getItem (st : Storage) (k : String) : Option String :=
  (st.find? (fun e => e.1 == k)).map Prod.snd

/-- The storage effect of the `applyTheme` closure: persist the serialized
mode under the fixed storage key. -/
def applyThemeStore (mode : ColorSchemePreference) (st : Storage) : Storage :=
  setItem st STORAGE_KEY (modeString mode)

/-- Observable state of the controller: current mode and local storage. -/
structure ControllerState where
  mode : ColorSchemePreference
  storage : Storage
deriving DecidableEq

/-- One toggle interaction: `handleModeSwitch` advances the mode and the
effect re-runs `applyTheme`, persisting the new mode before the step
completes. -/
def toggleStep (s : ControllerState) : ControllerState :=
  let m := handleModeSwitch s.mode
  { mode := m, storage := applyThemeStore m s.storage }

deriving instance DecidableEq for Except

/-! ## Helper lemmas -/

/-- Dropping a suffix that is literally appended recovers the stem. -/
theorem dropSuffix_append (pre suf : List Char) :
    dropSuffix (pre ++ suf) suf = some pre := by
  unfold dropSuffix
  have hlen : (pre ++ suf).length - suf.length = pre.length := by
    simp [List.length_append]
  rw [hlen, List.drop_left, if_pos rfl, List.take_left]

/-- Stripping the `.md` extension from `b ++ ".md"` gives back `b`. -/
theorem stripMdExt_append (b : String) : stripMdExt (b ++ ".md") = b := by
  unfold stripMdExt
  rw [show (b ++ ".md").data = b.data ++ ".md".data from rfl, dropSuffix_append]

/-- A string without the `.md` suffix is untouched by the strip. -/
theorem stripMdExt_eq_self {s : String}
    (h : dropSuffix s.data ".md".data = none) : stripMdExt s = s := by
  unfold stripMdExt
  rw [h]

/-! ## Claims -/

/-- Claim C1: for every source filename in the content root (a file named
`<stem>.md`), the Post returned by `getPostBySlug` on that filename has its
`slug` field equal to the filename with its extension stripped (that is,
`slug ++ ".md"` is the filename again). -/
theorem C1_getPostBySlug_slug_eq_filename (fs : FileSystem) (f b : String)
    (p : Post) (hmem : f ∈ getPostSlugs fs) (hext : f = b ++ ".md")
    (hok : getPostBySlug fs f = Except.ok p) :
    p.slug ++ ".md" = f := by
  subst hext
  simp only [getPostBySlug, stripMdExt_append] at hok
  cases hrf : readFile fs (b ++ ".md") with
  | none => rw [hrf] at hok; cases hok
  | some c =>
    rw [hrf] at hok
    dsimp only at hok
    cases hm : matter c with
    | error e => rw [hm] at hok; cases hok
    | ok dc =>
      obtain ⟨d, ct⟩ := dc
      rw [hm] at hok
      dsimp only at hok
      cases hok
      rfl

/-- Claim C1 witness. -/
theorem C1_witness :
    "a.md" ∈ getPostSlugs [("a.md", "hi")] ∧
      (Post.mk "a" "" "<p>hi</p>" []).slug ++ ".md" = "a.md" :=
  ⟨by decide,
   C1_getPostBySlug_slug_eq_filename [("a.md", "hi")] "a.md" "a"
     (Post.mk "a" "" "<p>hi</p>" []) (by decide) rfl (by decide)⟩

/-- Claim C3: the Markdown-to-HTML renderer is deterministic — two
invocations of `markdownToHtml` on the same input string yield identical
HTML output. The embedded pipeline is a pure function of the input text
alone (the source injects no timestamps, random IDs, or
environment-dependent content), so equal inputs give equal outputs. -/
theorem C3_markdownToHtml_deterministic (m₁ m₂ : String) (h : m₁ = m₂) :
    markdownToHtml m₁ = markdownToHtml m₂ := by rw [h]

/-- Claim C3 witness. -/
theorem C3_witness :
    markdownToHtml "# Title\n\ncode" = markdownToHtml "# Title\n\ncode" :=
  C3_markdownToHtml_deterministic "# Title\n\ncode" "# Title\n\ncode" rfl

/-- Claim C6: a slug whose resolved file `<realSlug>.md` is not present in
the content root makes `getPostBySlug` fail with the `NotFound` error kind,
propagated to the caller. -/
theorem C6_getPostBySlug_notFound (fs : FileSystem) (s : String)
    (h : stripMdExt s ++ ".md" ∉ getPostSlugs fs) :
    getPostBySlug fs s = Except.error Err.NotFound := by
  have hrf : readFile fs (stripMdExt s ++ ".md") = none := by
    unfold readFile
    rw [List.find?_eq_none.mpr]
    · rfl
    · intro x hx hbeq
      exact h (List.mem_map.mpr ⟨x, hx, by simpa using hbeq⟩)
  simp only [getPostBySlug, hrf]

/-- Claim C6 witness. -/
theorem C6_witness :
    getPostBySlug [("a.md", "hello")] "b" = Except.error Err.NotFound :=
  C6_getPostBySlug_notFound [("a.md", "hello")] "b" (by decide)

/-- Claim C8: the theme controller starts in state `system`, its toggle
advances cyclically `system → dark → light → system`, and three toggles
from any state return to that state. -/
theorem C8_toggle_cycle :
    initialMode = ColorSchemePreference.system ∧
    handleModeSwitch .system = .dark ∧
    handleModeSwitch .dark = .light ∧
    handleModeSwitch .light = .system ∧
    ∀ m, handleModeSwitch (handleModeSwitch (handleModeSwitch m)) = m := by
  refine ⟨rfl, rfl, rfl, rfl, ?_⟩
  intro m
  cases m <;> rfl

/-- Claim C9: every toggle interaction persists the serialized new state
under the fixed storage key within the same step, and that stored value is
always one of `"system"`, `"dark"`, `"light"`. -/
theorem C9_toggle_persists (s : ControllerState) :
    getItem (toggleStep s).storage STORAGE_KEY =
      some (modeString (toggleStep s).mode) ∧
    modeString (toggleStep s).mode ∈ ["system", "dark", "light"] := by
  constructor
  · simp [toggleStep, applyThemeStore, setItem, getItem, List.find?]
  · obtain ⟨m, st⟩ := s
    show modeString (handleModeSwitch m) ∈ ["system", "dark", "light"]
    cases m <;> decide

/-- Content root refuting claim C10: the file `a.md` exists, but fetching
`"a.md" ++ ".md"` resolves to the missing file `a.md.md`. -/
def oneMdFS : FileSystem := [("a.md", "hello")]

/-- Claim C10 counterexample: `getPostBySlug` is not insensitive to a
trailing `".md"` for every string — for `s = "a.md"` over a content root
containing `a.md`, `getPostBySlug s` succeeds while
`getPostBySlug (s ++ ".md")` fails with `NotFound`, because the regex
strips only one trailing `.md`. -/
theorem C10_counterexample :
    ¬ getPostBySlug oneMdFS "a.md" = getPostBySlug oneMdFS ("a.md" ++ ".md") := by
  decide

/-- Claim C10 (amended): for every string `s` that does not already end in
`".md"`, `getPostBySlug s` and `getPostBySlug (s ++ ".md")` resolve to the
same file and return the same result; in particular the raw filenames
produced by `getPostSlugs` are valid inputs. -/
theorem C10_md_extension_insensitive (fs : FileSystem) (s : String)
    (h : dropSuffix s.data ".md".data = none) :
    getPostBySlug fs (s ++ ".md") = getPostBySlug fs s := by
  unfold getPostBySlug
  rw [stripMdExt_append, stripMdExt_eq_self h]

/-- Claim C10 (amended) witness. -/
theorem C10_witness :
    getPostBySlug [("a.md", "hi")] ("a" ++ ".md") =
      getPostBySlug [("a.md", "hi")] "a" :=
  C10_md_extension_insensitive [("a.md", "hi")] "a" (by decide)

/-- Claim C4: raw file text with no leading frontmatter delimiter line is
parsed permissively — the parser step used by `getPostBySlug` returns empty
metadata and the full original text as the body, and reports no error. -/
theorem C4_matter_missing_frontmatter (text : String)
    (h : (splitLines text).head? ≠ some "---") :
    matter text = Except.ok ([], text) := by
  simp only [matter]
  rw [if_neg h]

/-- Claim C4 witness. -/
theorem C4_witness : matter "hello world" = Except.ok ([], "hello world") :=
  C4_matter_missing_frontmatter "hello world" (by decide)

/-- Claim C5: a frontmatter block that is present but not parseable — the
delimiter is opened but never closed, or a key-value line is unparseable —
makes the parser fail with the `MalformedFrontmatter` error kind, and
`getPostBySlug` propagates that error rather than suppressing it. -/
theorem C5_malformed_frontmatter :
    (∀ text : String, (splitLines text).head? = some "---" →
      (findClose (splitLines text).tail = none ∨
        ∃ block body, findClose (splitLines text).tail = some (block, body) ∧
          parseFMLines block = Except.error Err.MalformedFrontmatter) →
      matter text = Except.error Err.MalformedFrontmatter) ∧
    (∀ (fs : FileSystem) (s text : String),
      readFile fs (stripMdExt s ++ ".md") = some text →
      matter text = Except.error Err.MalformedFrontmatter →
      getPostBySlug fs s = Except.error Err.MalformedFrontmatter) := by
  constructor
  · intro text h1 h2
    simp only [matter]
    rw [if_pos h1]
    rcases h2 with h2 | ⟨block, body, hfc, hpf⟩
    · rw [h2]
    · rw [hfc]
      dsimp only
      rw [hpf]
      rfl
  · intro fs s text hrf hm
    simp only [getPostBySlug, hrf]
    rw [hm]

/-- Claim C5 witness: an unclosed delimiter block, and the propagation of a
malformed block (one whose key-value line has no colon) through
`getPostBySlug`. -/
theorem C5_witness :
    matter "---\ntitle: x" = Except.error Err.MalformedFrontmatter ∧
      getPostBySlug [("a.md", "---\nbad\n---\nbody")] "a" =
        Except.error Err.MalformedFrontmatter :=
  ⟨C5_malformed_frontmatter.1 "---\ntitle: x" (by decide) (Or.inl (by decide)),
   C5_malformed_frontmatter.2 [("a.md", "---\nbad\n---\nbody")] "a"
     "---\nbad\n---\nbody" (by decide) (by decide)⟩

/-! ## Lexicographic comparison and sorting lemmas -/

/-- Strict lexicographic comparison is asymmetric. -/
theorem charListLt_asymm (l₁ l₂ : List Char) (h : charListLt l₁ l₂ = true) :
    charListLt l₂ l₁ = false := by
  induction l₁ generalizing l₂ with
  | nil => cases l₂ <;> simp [charListLt]
  | cons a as ih =>
    cases l₂ with
    | nil => simp [charListLt] at h
    | cons b bs =>
      simp only [charListLt] at h ⊢
      by_cases hab : a < b
      · simp [hab, lt_asymm hab]
      · by_cases hba : b < a
        · simp [hab, hba] at h
        · simp only [hab, hba, if_false] at h
          simp [hab, hba, ih bs h]

/-- Strict lexicographic comparison is connected through any middle list:
`l₁ < l₃` forces `l₁ < l₂` or `l₂ < l₃`. -/
theorem charListLt_conn (l₁ l₂ l₃ : List Char)
    (h : charListLt l₁ l₃ = true) :
    charListLt l₁ l₂ = true ∨ charListLt l₂ l₃ = true := by
  induction l₁ generalizing l₂ l₃ with
  | nil =>
    cases l₃ with
    | nil => simp [charListLt] at h
    | cons c cs =>
      cases l₂ with
      | nil => right; simp [charListLt]
      | cons b bs => left; simp [charListLt]
  | cons a as ih =>
    cases l₃ with
    | nil => simp [charListLt] at h
    | cons c cs =>
      cases l₂ with
      | nil => right; simp [charListLt]
      | cons b bs =>
        simp only [charListLt] at h ⊢
        rcases lt_trichotomy a b with hab | hab | hab
        · left; simp [hab]
        · subst hab
          by_cases hac : a < c
          · right; simp [hac]
          · by_cases hca : c < a
            · simp [hac, hca] at h
            · simp only [hac, hca, if_false] at h
              rcases ih bs cs h with h1 | h1
              · left; simp [lt_irrefl, h1]
              · right; simp [hac, hca, h1]
        · by_cases hac : a < c
          · right; simp [lt_trans hab hac]
          · by_cases hca : c < a
            · simp [hac, hca] at h
            · have hacq : a = c := le_antisymm (not_lt.mp hca) (not_lt.mp hac)
              subst hacq
              right; simp [hab]

/-- Membership in an insertion. -/
theorem insertPost_mem {x p : Post} {l : List Post}
    (h : x ∈ insertPost p l) : x = p ∨ x ∈ l := by
  induction l with
  | nil => left; simpa [insertPost] using h
  | cons q qs ih =>
    simp only [insertPost] at h
    by_cases hc : charListLt q.date.data p.date.data = true
    · rw [if_pos hc] at h
      rcases List.mem_cons.mp h with h1 | h1
      · left; exact h1
      · right; exact h1
    · rw [if_neg hc] at h
      rcases List.mem_cons.mp h with h1 | h1
      · right; exact h1 ▸ List.mem_cons_self q qs
      · rcases ih h1 with h2 | h2
        · left; exact h2
        · right; exact List.mem_cons_of_mem q h2

/-- Inserting with the comparator of `getAllPosts` preserves the
date-descending invariant. -/
theorem insertPost_pairwise {p : Post} {l : List Post}
    (h : l.Pairwise (fun a b => dateLe b.date a.date = true)) :
    (insertPost p l).Pairwise (fun a b => dateLe b.date a.date = true) := by
  induction l with
  | nil => simp [insertPost]
  | cons q qs ih =>
    rcases List.pairwise_cons.mp h with ⟨hq, hqs⟩
    simp only [insertPost]
    by_cases hc : charListLt q.date.data p.date.data = true
    · rw [if_pos hc]
      refine List.pairwise_cons.mpr ⟨?_, h⟩
      intro x hx
      rcases List.mem_cons.mp hx with rfl | hx2
      · simpa [dateLe, charListLe] using charListLt_asymm _ _ hc
      · simp only [dateLe, charListLe, Bool.not_eq_true', Bool.not_eq_true]
        by_contra hpx
        have hpx' : charListLt p.date.data x.date.data = true := by
          simpa using hpx
        have hq' : charListLt q.date.data x.date.data = false := by
          simpa [dateLe, charListLe] using hq x hx2
        rcases charListLt_conn q.date.data x.date.data p.date.data hc with
          h1 | h1
        · rw [hq'] at h1; cases h1
        · rw [charListLt_asymm _ _ hpx'] at h1; cases h1
    · rw [if_neg hc]
      refine List.pairwise_cons.mpr ⟨?_, ih hqs⟩
      intro x hx
      rcases insertPost_mem hx with rfl | hx2
      · simp only [dateLe, charListLe, Bool.not_eq_true'] at hc ⊢
        simpa using hc
      · exact hq x hx2

/-- The full sort of `getAllPosts` is date-descending. -/
theorem sortPosts_pairwise (l : List Post) :
    (sortPosts l).Pairwise (fun a b => dateLe b.date a.date = true) := by
  induction l with
  | nil => simp [sortPosts]
  | cons p ps ih => exact insertPost_pairwise ih

/-- Content root of the spec's worked example: `example.md` dated
2021-01-01 and `other.md` dated 2022-01-01. -/
def twoPostFS : FileSystem :=
  [("example.md",
    "---\ntitle: \"A\"\ndate: \"2021-01-01T00:00:00.000Z\"\n---\nhello"),
   ("other.md",
    "---\ntitle: \"B\"\ndate: \"2022-01-01T00:00:00.000Z\"\n---\nworld")]

/-- Claim C2: the collection returned by `getAllPosts` is ordered by date
descending — every adjacent pair satisfies `later.date ≤ earlier.date`
under lexicographic comparison — and on the spec's worked example (posts
dated 2021-01-01 and 2022-01-01) the 2022 post comes first. -/
theorem C2_getAllPosts_sorted :
    (∀ (fs : FileSystem) (ps : List Post), getAllPosts fs = Except.ok ps →
      ps.Chain' (fun a b => dateLe b.date a.date = true)) ∧
    Except.map (List.map Post.slug) (getAllPosts twoPostFS) =
      Except.ok ["other", "example"] := by
  constructor
  · intro fs ps hok
    unfold getAllPosts at hok
    cases hm : (readDir fs).mapM (getPostBySlug fs) with
    | error e => rw [hm] at hok; cases hok
    | ok posts =>
      rw [hm] at hok
      cases hok
      exact (sortPosts_pairwise posts).chain'
  · decide

/-- Claim C2 witness. -/
theorem C2_witness :
    (((getAllPosts twoPostFS).toOption.getD []).Chain'
      (fun a b => dateLe b.date a.date = true)) :=
  C2_getAllPosts_sorted.1 twoPostFS
    ((getAllPosts twoPostFS).toOption.getD []) rfl

/-! ## Renderer lemmas -/

/-- Splitting a text that starts with a newline-free chunk followed by a
newline emits that chunk as a line. -/
theorem splitLinesAux_chunk (pre : List Char) :
    ∀ (rest acc : List Char), '\n' ∉ pre →
      splitLinesAux (pre ++ '\n' :: rest) acc =
        ⟨acc.reverse ++ pre⟩ :: splitLinesAux rest [] := by
  induction pre with
  | nil => intro rest acc _; simp [splitLinesAux]
  | cons c cs ih =>
    intro rest acc h
    have hc : ¬(c = '\n') := fun hcc => h (hcc ▸ List.mem_cons_self c cs)
    simp only [List.cons_append, splitLinesAux, List.append_eq]
    rw [if_neg hc, ih rest (c :: acc) (fun hm => h (List.mem_cons_of_mem c hm))]
    simp

/-- Splitting a newline-free text yields that single line. -/
theorem splitLinesAux_last (pre : List Char) :
    ∀ acc : List Char, '\n' ∉ pre →
      splitLinesAux pre acc = [⟨acc.reverse ++ pre⟩] := by
  induction pre with
  | nil => intro acc _; simp [splitLinesAux]
  | cons c cs ih =>
    intro acc h
    have hc : ¬(c = '\n') := fun hcc => h (hcc ▸ List.mem_cons_self c cs)
    simp only [splitLinesAux]
    rw [if_neg hc, ih (c :: acc) (fun hm => h (List.mem_cons_of_mem c hm))]
    simp

/-- Splitting undoes joining for a nonempty list of newline-free lines. -/
theorem splitLines_joinLines :
    ∀ lines : List String, lines ≠ [] → (∀ s ∈ lines, '\n' ∉ s.data) →
      splitLines (joinLines lines) = lines := by
  intro lines
  induction lines with
  | nil => intro h _; cases h rfl
  | cons l ls ih =>
    intro _ h
    cases ls with
    | nil =>
      show splitLines (joinLines [l]) = [l]
      rw [show joinLines [l] = l from rfl]
      unfold splitLines
      rw [splitLinesAux_last l.data [] (h l (List.mem_cons_self l []))]
      simp
    | cons l₂ ls₂ =>
      rw [show joinLines (l :: l₂ :: ls₂) = l ++ "\n" ++ joinLines (l₂ :: ls₂)
        from rfl]
      unfold splitLines
      have hdata : (l ++ "\n" ++ joinLines (l₂ :: ls₂)).data
          = l.data ++ '\n' :: (joinLines (l₂ :: ls₂)).data := by
        simp [String.data_append]
      rw [hdata,
        splitLinesAux_chunk l.data _ [] (h l (List.mem_cons_self l _))]
      have ihh := ih (by simp) (fun s hs => h s (List.mem_cons_of_mem l hs))
      unfold splitLines at ihh
      rw [ihh]
      simp

/-- Inside an open fence, the renderer collects lines verbatim until the
closing fence and emits a single code block. -/
theorem renderAux_fence (lang : String) :
    ∀ (codeLines acc : List String),
      (∀ c ∈ codeLines, startsWithStr c fenceStr = false) →
      renderAux (some lang) acc (codeLines ++ [fenceStr]) =
        [renderCode lang (acc ++ codeLines)] := by
  intro codeLines
  induction codeLines with
  | nil =>
    intro acc _
    show renderAux (some lang) acc [fenceStr] = [renderCode lang (acc ++ [])]
    simp only [renderAux]
    rw [if_pos (by decide)]
    simp [renderAux]
  | cons c cs ih =>
    intro acc h
    have hc : ¬(startsWithStr c fenceStr = true) := by
      rw [h c (List.mem_cons_self c cs)]; simp
    simp only [List.cons_append, renderAux, List.append_eq]
    rw [if_neg hc, ih (acc ++ [c]) (fun x hx => h x (List.mem_cons_of_mem c hx))]
    simp

/-- A fence-opening line starts with the fence delimiter. -/
theorem fence_line_startsWith (lang : String) :
    startsWithStr (fenceStr ++ lang) fenceStr = true := by
  unfold startsWithStr
  rw [String.data_append]
  exact List.isPrefixOf_iff_prefix.mpr (List.prefix_append _ _)

/-- Dropping the three backticks from a fence-opening line leaves the
language hint. -/
theorem fence_line_drop (lang : String) :
    dropStr (fenceStr ++ lang) 3 = lang := by
  unfold dropStr
  rw [String.data_append, List.drop_left' (by decide : fenceStr.data.length = 3)]

/-- Claim C7: a Markdown document containing a fenced code block whose
language hint is not a recognized language still renders — the output wraps
the literal (HTML-escaped) code text in a plain `<pre><code>` block with no
highlighting markup, rather than failing. -/
theorem C7_unknown_lang_degrades (lang : String) (codeLines : List String)
    (h1 : lang ∉ knownLangs) (h2 : lang ≠ "") (h3 : trimStr lang = lang)
    (h4 : '\n' ∉ lang.data)
    (h5 : ∀ c ∈ codeLines, startsWithStr c fenceStr = false)
    (h6 : ∀ c ∈ codeLines, '\n' ∉ c.data) :
    markdownToHtml (joinLines ((fenceStr ++ lang) :: codeLines ++ [fenceStr])) =
      "<pre><code" ++ " class=\"language-" ++ lang ++ "\"" ++ ">" ++
        escapeHtml (joinLines codeLines) ++ "\n</code></pre>" := by
  unfold markdownToHtml
  rw [splitLines_joinLines _ (by simp) ?hnl]
  case hnl =>
    intro s hs
    rcases List.mem_cons.mp hs with rfl | hs2
    · rw [String.data_append]
      intro hmem
      rcases List.mem_append.mp hmem with hf | hl
      · revert hf; decide
      · exact h4 hl
    · rcases List.mem_append.mp hs2 with hcl | hfe
      · exact h6 s hcl
      · rw [List.mem_singleton.mp hfe]; decide
  unfold markdownToHtmlLines
  have heq : renderAux none [] ((fenceStr ++ lang) :: codeLines ++ [fenceStr])
      = renderAux (some (trimStr (dropStr (fenceStr ++ lang) 3))) []
          (codeLines ++ [fenceStr]) := by
    simp only [renderAux]
    rw [if_pos (fence_line_startsWith lang)]
    rfl
  rw [heq, fence_line_drop, h3, renderAux_fence lang codeLines [] h5]
  show renderCode lang codeLines = _
  simp only [renderCode]
  rw [if_neg h2, if_neg h1]
  apply String.ext
  simp [String.data_append, List.append_assoc]

/-- Claim C7 witness. -/
theorem C7_witness :
    markdownToHtml
        (joinLines ((fenceStr ++ "nosuchlang") :: ["const x = 1;"] ++ [fenceStr])) =
      "<pre><code" ++ " class=\"language-" ++ "nosuchlang" ++ "\"" ++ ">" ++
        escapeHtml (joinLines ["const x = 1;"]) ++ "\n</code></pre>" :=
  C7_unknown_lang_degrades "nosuchlang" ["const x = 1;"] (by decide) (by decide)
    (by decide) (by decide) (by decide) (by decide)

end Blog
